import Mathlib

/-!
# Verification of the evhz2 event-rate estimator

Shallow embedding of `src/evhz2.c`: the per-device rate-estimator state
(`event_t`), its single update operation (`update_hz`), the driver folds that
feed a timestamp stream to one estimator, and the shutdown summary condition
of `linux_poll_loop`.  Machine `unsigned long long` arithmetic is modelled on
`Nat` with explicit reduction modulo `2^64`.
-/

/-- `#define HZ_LIST 64` — capacity of the circular rate buffer. -/
def HZ_LIST : Nat := 64

/-- Modulus of C `unsigned long long` values. -/
def U64 : Nat := 2 ^ 64

/-- C unsigned 64-bit subtraction `a - b` (wraps modulo `2^64`). -/
def u64sub (a b : Nat) : Nat := (a % U64 + (U64 - b % U64)) % U64

/-- What one accepted event reports (the verbose per-event line prints the
instantaneous rate `hz` and the recomputed running average `avghz`). -/
structure Sample where
  rate : Nat
  avg : Nat
deriving DecidableEq

/-- The estimator state of `event_t` (the platform `fd` handle and the device
`name` are external to the rate computation and are not part of the state).
`hz` is the circular buffer, accessed only at indices `< HZ_LIST`. -/
structure event_t where
  hz : Nat → Nat
  count : Nat
  avghz : Nat
  prev_time : Nat

/-- The zero-initialised estimator (`memset(events, 0, ...)` / `= {0}`). -/
def init_event : event_t := ⟨fun _ => 0, 0, 0, 0⟩

/-- The averaging loop `for (j = 0; j < maxavg; j++) avghz += hz[j]`. -/
def sum_hz (buf : Nat → Nat) : Nat → Nat
  | 0 => 0
  | m + 1 => sum_hz buf m + buf m

/-- `update_hz` from `src/evhz2.c`: one observed event with timestamp `time`.
Returns the new state together with the emitted sample, if any (the sample is
what the verbose branch prints: the accepted instantaneous rate and the new
running average). -/
def update_hz (evt : event_t) (time : Nat) : event_t × Option Sample :=
  if evt.prev_time = 0 then
    ({ evt with prev_time := time }, none)
  else
    let timediff := u64sub time evt.prev_time
    let hz := if timediff ≠ 0 then 8000 / timediff else 0
    if hz > 0 then
      let count := evt.count + 1
      let buf := Function.update evt.hz (count &&& (HZ_LIST - 1)) hz
      let maxavg := if count > HZ_LIST then HZ_LIST else count
      let avg := sum_hz buf maxavg / maxavg
      (⟨buf, count, avg, time⟩, some ⟨hz, avg⟩)
    else
      ({ evt with prev_time := time }, none)

/-- Feed a list of timestamps to one estimator, keeping the final state. -/
def runSeq (evt : event_t) (ts : List Nat) : event_t :=
  ts.foldl (fun e t => (update_hz e t).1) evt

/-- Feed a list of timestamps to one estimator, collecting emitted samples. -/
def runSamples (evt : event_t) : List Nat → List Sample
  | [] => []
  | t :: rest =>
    match update_hz evt t with
    | (e, some s) => s :: runSamples e rest
    | (e, none) => runSamples e rest

/-- The list of instantaneous rates the estimator accepts from timestamp
stream `ts`, starting from baseline `prev` (`0` = no baseline yet). -/
def acceptedRates (prev : Nat) : List Nat → List Nat
  | [] => []
  | t :: rest =>
    if prev = 0 then acceptedRates t rest
    else
      let timediff := u64sub t prev
      let hz := if timediff ≠ 0 then 8000 / timediff else 0
      if hz > 0 then hz :: acceptedRates t rest else acceptedRates t rest

/-- Shutdown reporting condition of `linux_poll_loop`: a summary line
`Average for <name>: ...` is printed for a device exactly when its fd is
open and its running average is non-zero. -/
def summary_emitted (fd : Int) (evt : event_t) : Bool :=
  (fd != -1) && (evt.avghz != 0)

/-- The 70-event constant-delta-80 timestamp stream of the wraparound
scenario: timestamps `80, 160, ..., 5600`. -/
def ts70 : List Nat := (List.range 70).map fun k => 80 * (k + 1)

/-- Replay the sequence of buffer writes performed by a run of accepted
samples: starting from buffer `buf` with `base` samples already accepted,
write each rate of `rs` in turn at slot `(sample index) % HZ_LIST` (the
sample index is incremented before the write, as in `update_hz`). -/
def writeAll (buf : Nat → Nat) (base : Nat) : List Nat → (Nat → Nat)
  | [] => buf
  | r :: rest => writeAll (Function.update buf ((base + 1) % HZ_LIST) r) (base + 1) rest

/-- The circular buffer contents after accepting exactly the rates `rs`
starting from the zero-initialised estimator. -/
def coreBuf (rs : List Nat) : Nat → Nat := writeAll (fun _ => 0) 0 rs

/-- `maxavg = (count > HZ_LIST) ? HZ_LIST : count`. -/
def maxavgOf (m : Nat) : Nat := if m > HZ_LIST then HZ_LIST else m

/-- The running average held by the estimator after accepting exactly the
rates `rs` from the zero-initialised estimator (`0` before any sample). -/
def avgOf (rs : List Nat) : Nat :=
  if rs.length = 0 then 0
  else sum_hz (coreBuf rs) (maxavgOf rs.length) / maxavgOf rs.length

/-! ## Basic arithmetic facts about the embedding -/

lemma and_mask_eq_mod (n : Nat) : n &&& (HZ_LIST - 1) = n % HZ_LIST := by
  have h : n &&& 2 ^ 6 - 1 = n % 2 ^ 6 := Nat.and_pow_two_sub_one_eq_mod n 6
  simpa [HZ_LIST] using h

lemma u64sub_self (a : Nat) : u64sub a a = 0 := by
  unfold u64sub
  have hU : 0 < U64 := by norm_num [U64]
  have hlt : a % U64 < U64 := Nat.mod_lt _ hU
  have h : a % U64 + (U64 - a % U64) = U64 := by omega
  rw [h, Nat.mod_self]

lemma u64sub_of_le {a b : Nat} (hba : b ≤ a) (ha : a < U64) :
    u64sub a b = a - b := by
  unfold u64sub
  have hb : b < U64 := lt_of_le_of_lt hba ha
  have hU : 0 < U64 := by norm_num [U64]
  rw [Nat.mod_eq_of_lt ha, Nat.mod_eq_of_lt hb]
  have h1 : a + (U64 - b) = U64 + (a - b) := by omega
  rw [h1, Nat.add_mod_left, Nat.mod_eq_of_lt (by omega)]

lemma u64sub_wrap {a b : Nat} (hab : a < b) (hb : b < U64) :
    u64sub a b = U64 - (b - a) := by
  unfold u64sub
  have ha : a < U64 := lt_trans hab hb
  rw [Nat.mod_eq_of_lt ha, Nat.mod_eq_of_lt hb]
  have h1 : a + (U64 - b) = U64 - (b - a) := by omega
  rw [h1]
  exact Nat.mod_eq_of_lt (by omega)

/-! ## Structural lemmas about one `update_hz` step -/

lemma update_hz_baseline (e : event_t) (t : Nat) (h : e.prev_time = 0) :
    update_hz e t = ({ e with prev_time := t }, none) := by
  simp [update_hz, h]

lemma update_hz_reject (e : event_t) (t : Nat) (h0 : e.prev_time ≠ 0)
    (hr : 8000 / u64sub t e.prev_time = 0) :
    update_hz e t = ({ e with prev_time := t }, none) := by
  unfold update_hz
  rw [if_neg h0]
  rcases Nat.eq_zero_or_pos (u64sub t e.prev_time) with hd | hd
  · simp [hd]
  · simp [Nat.pos_iff_ne_zero.mp hd, hr]

lemma update_hz_accept (e : event_t) (t : Nat) (h0 : e.prev_time ≠ 0)
    (hr : 0 < 8000 / u64sub t e.prev_time) :
    update_hz e t =
      (let hz := 8000 / u64sub t e.prev_time
       let count := e.count + 1
       let buf := Function.update e.hz (count &&& (HZ_LIST - 1)) hz
       let maxavg := if count > HZ_LIST then HZ_LIST else count
       let avg := sum_hz buf maxavg / maxavg
       (⟨buf, count, avg, t⟩, some ⟨hz, avg⟩)) := by
  have hd : u64sub t e.prev_time ≠ 0 := by
    intro h; rw [h] at hr; simp at hr
  unfold update_hz
  rw [if_neg h0]
  simp only [hd, if_true, ite_true, ne_eq, not_false_eq_true]
  rw [if_pos hr]

lemma update_hz_prev (e : event_t) (t : Nat) : (update_hz e t).1.prev_time = t := by
  unfold update_hz
  dsimp only
  repeat' split
  all_goals rfl

/-! ## C5 / C6: baseline establishment and zero-delta events -/

/-- C6: with no baseline yet (`prev_time == 0`), any call just records the
timestamp as the new baseline, produces no sample, and changes nothing
else, whatever the timestamp is. -/
theorem first_call_establishes_baseline (e : event_t) (t : Nat)
    (h : e.prev_time = 0) :
    update_hz e t = ({ e with prev_time := t }, none) :=
  update_hz_baseline e t h

theorem first_call_establishes_baseline_witness :
    init_event.prev_time = 0 ∧
    update_hz init_event 7 = ({ init_event with prev_time := 7 }, none) :=
  ⟨rfl, first_call_establishes_baseline init_event 7 rfl⟩

/-- C5: with an established baseline, an event whose timestamp equals the
stored baseline (zero delta) produces no sample and leaves the whole state
unchanged, while (trivially) re-storing the timestamp as the baseline. -/
theorem zero_delta_no_sample (e : event_t) (t : Nat)
    (h0 : e.prev_time ≠ 0) (ht : t = e.prev_time) :
    update_hz e t = (e, none) ∧ (update_hz e t).1.prev_time = t := by
  subst ht
  have h := update_hz_reject e e.prev_time h0 (by rw [u64sub_self])
  constructor
  · rw [h]
  · rw [h]

theorem zero_delta_no_sample_witness :
    ((update_hz init_event 5).1.prev_time ≠ 0) ∧
    update_hz (update_hz init_event 5).1 5 = ((update_hz init_event 5).1, none) := by
  refine ⟨by decide, ?_⟩
  exact (zero_delta_no_sample (update_hz init_event 5).1 5 (by decide) (by decide)).1

/-! ## C2: which deltas produce a sample, and with what rate -/

/-- C2 counterexample: a strictly positive delta does not always produce a
sample.  With baseline 1, the call at timestamp 8002 has delta 8001 > 0,
yet the estimator emits nothing (8000 / 8001 truncates to 0 and is
rejected). -/
theorem positive_delta_not_always_sample :
    0 < u64sub 8002 1 ∧ (update_hz (update_hz init_event 1).1 8002).2 = none := by
  constructor
  · decide
  · decide

/-- C2 amended: the first call never produces a sample; with an established
baseline and a forward timestamp, a sample is produced exactly when the
delta is at most `SCALE = 8000`, and then its instantaneous rate is
`8000 / delta`; a delta above 8000 produces no sample. -/
theorem rate_emission_characterization :
    (∀ t, (update_hz init_event t).2 = none) ∧
    (∀ (e : event_t) (t : Nat), e.prev_time ≠ 0 → e.prev_time < t → t < U64 →
      (update_hz e t).2.map Sample.rate =
        if t - e.prev_time ≤ 8000 then some (8000 / (t - e.prev_time)) else none) := by
  constructor
  · intro t
    rw [update_hz_baseline init_event t rfl]
  · intro e t h0 hlt hU
    have hd : u64sub t e.prev_time = t - e.prev_time := u64sub_of_le (le_of_lt hlt) hU
    by_cases hle : t - e.prev_time ≤ 8000
    · have hpos : 0 < 8000 / u64sub t e.prev_time := by
        rw [hd]
        exact Nat.div_pos hle (by omega)
      rw [update_hz_accept e t h0 hpos]
      simp [hd, hle]
    · have hz0 : 8000 / u64sub t e.prev_time = 0 := by
        rw [hd]
        exact Nat.div_eq_of_lt (by omega)
      rw [update_hz_reject e t h0 hz0]
      simp [hle]

theorem rate_emission_characterization_witness :
    ((update_hz init_event 1).1.prev_time ≠ 0) ∧
    ((update_hz (update_hz init_event 1).1 41).2.map Sample.rate =
      if 41 - (update_hz init_event 1).1.prev_time ≤ 8000 then
        some (8000 / (41 - (update_hz init_event 1).1.prev_time)) else none) :=
  ⟨by decide,
   rate_emission_characterization.2 (update_hz init_event 1).1 41
     (by decide) (by decide) (by decide)⟩

/-! ## C9: bounds on accepted rates and on the stored buffer -/

lemma hz_buf_bound (e : event_t) (t : Nat) (hb : ∀ j, e.hz j ≤ 8000) :
    ∀ j, (update_hz e t).1.hz j ≤ 8000 := by
  intro j
  by_cases h0 : e.prev_time = 0
  · rw [update_hz_baseline e t h0]
    exact hb j
  · by_cases hp : 0 < 8000 / u64sub t e.prev_time
    · rw [update_hz_accept e t h0 hp]
      dsimp only
      rw [Function.update_apply]
      split
      · exact Nat.div_le_self _ _
      · exact hb j
    · rw [update_hz_reject e t h0 (Nat.eq_zero_of_not_pos hp)]
      exact hb j

lemma runSeq_buf_bound : ∀ (ts : List Nat) (e : event_t),
    (∀ j, e.hz j ≤ 8000) → ∀ j, (runSeq e ts).hz j ≤ 8000 := by
  intro ts
  induction ts with
  | nil => intro e hb j; exact hb j
  | cons t rest ih => intro e hb j; exact ih (update_hz e t).1 (hz_buf_bound e t hb) j

/-- C9: every emitted sample's instantaneous rate lies in `[1, 8000]`, and
every slot of the history buffer of any reachable state is at most 8000 —
so the optional 10000 Hz sanity ceiling could never trigger. -/
theorem accepted_rate_bounds :
    (∀ (e : event_t) (t : Nat) (s : Sample),
      (update_hz e t).2 = some s → 1 ≤ s.rate ∧ s.rate ≤ 8000) ∧
    (∀ (ts : List Nat) (j : Nat), (runSeq init_event ts).hz j ≤ 8000) := by
  constructor
  · intro e t s h
    by_cases h0 : e.prev_time = 0
    · rw [update_hz_baseline e t h0] at h
      simp at h
    · by_cases hp : 0 < 8000 / u64sub t e.prev_time
      · rw [update_hz_accept e t h0 hp] at h
        simp only [Option.some.injEq] at h
        rw [← h]
        exact ⟨hp, Nat.div_le_self _ _⟩
      · rw [update_hz_reject e t h0 (Nat.eq_zero_of_not_pos hp)] at h
        simp at h
  · intro ts j
    exact runSeq_buf_bound ts init_event (fun _ => Nat.zero_le _) j

theorem accepted_rate_bounds_witness :
    ((update_hz (update_hz init_event 1).1 41).2 = some ⟨200, 0⟩) ∧
    (1 ≤ (200 : Nat) ∧ (200 : Nat) ≤ 8000) :=
  ⟨by decide,
   accepted_rate_bounds.1 (update_hz init_event 1).1 41 ⟨200, 0⟩ (by decide)⟩

/-! ## C10: backwards timestamps wrap modulo 2^64 -/

/-- C10: with an established baseline and a timestamp strictly before it,
the delta wraps modulo `2^64`; whenever the wrapped delta exceeds 8000 the
event is silently rejected — no sample, no state change except the
baseline moving (backwards) to the new timestamp. -/
theorem wraparound_delta_rejection (e : event_t) (t : Nat)
    (h0 : e.prev_time ≠ 0) (hlt : t < e.prev_time) (hU : e.prev_time < U64) :
    u64sub t e.prev_time = U64 - (e.prev_time - t) ∧
    (8000 < U64 - (e.prev_time - t) →
      update_hz e t = ({ e with prev_time := t }, none)) := by
  have hw := u64sub_wrap hlt hU
  refine ⟨hw, fun hbig => ?_⟩
  apply update_hz_reject e t h0
  rw [hw]
  exact Nat.div_eq_of_lt hbig

theorem wraparound_delta_rejection_witness :
    u64sub 3 (update_hz init_event 5).1.prev_time
      = U64 - ((update_hz init_event 5).1.prev_time - 3) ∧
    update_hz (update_hz init_event 5).1 3
      = ({ (update_hz init_event 5).1 with prev_time := 3 }, none) := by
  have h := wraparound_delta_rejection (update_hz init_event 5).1 3
    (by decide) (by decide) (by decide)
  exact ⟨h.1, h.2 (by decide)⟩

/-! ## C8: shutdown summary needs at least one accepted sample -/

lemma count_zero_avg_zero : ∀ (ts : List Nat) (e : event_t),
    (e.count = 0 → e.avghz = 0) →
    ((runSeq e ts).count = 0 → (runSeq e ts).avghz = 0) := by
  intro ts
  induction ts with
  | nil => intro e h; exact h
  | cons t rest ih =>
    intro e h
    refine ih (update_hz e t).1 ?_
    intro hc
    by_cases h0 : e.prev_time = 0
    · rw [update_hz_baseline e t h0] at hc ⊢
      exact h hc
    · by_cases hp : 0 < 8000 / u64sub t e.prev_time
      · rw [update_hz_accept e t h0 hp] at hc
        simp at hc
      · rw [update_hz_reject e t h0 (Nat.eq_zero_of_not_pos hp)] at hc ⊢
        exact h hc

/-- C8: a device whose estimator accepted zero samples over the whole run
gets no shutdown summary line (its running average is still zero, so the
`avghz != 0` guard in the shutdown loop fails). -/
theorem no_summary_without_samples (ts : List Nat) (fd : Int)
    (h : (runSeq init_event ts).count = 0) :
    summary_emitted fd (runSeq init_event ts) = false := by
  have ha : (runSeq init_event ts).avghz = 0 :=
    count_zero_avg_zero ts init_event (fun _ => rfl) h
  unfold summary_emitted
  rw [ha]
  simp

theorem no_summary_without_samples_witness :
    ((runSeq init_event [2, 2, 2]).count = 0) ∧
    summary_emitted 3 (runSeq init_event [2, 2, 2]) = false :=
  ⟨by decide, no_summary_without_samples [2, 2, 2] 3 (by decide)⟩

/-! ## C3: the [0, 40, 80] delta scenario -/

/-- C3 counterexample: feeding timestamps 1, 41, 121 (deltas 0-from-start,
40, 80) does yield instantaneous rates 200 then 100, but the running
average reported with the second accepted sample is 100, not the claimed
(200+100)/2 = 150. -/
theorem three_event_average_counterexample :
    (runSamples init_event [1, 41, 121]).map Sample.rate = [200, 100] ∧
    ((runSamples init_event [1, 41, 121]).getD 1 ⟨0, 0⟩).avg ≠ 150 := by
  constructor
  · decide
  · decide

/-- C3 amended: deltas [0, 40, 80] yield instantaneous rates 200 then 100,
and the average after the second accepted sample is (0 + 200)/2 = 100: the
averaging loop reads slots 0..1, where slot 0 was never written and the
newest rate (100, in slot 2) is not yet included. -/
theorem three_event_run :
    runSamples init_event [1, 41, 121] = [⟨200, 0⟩, ⟨100, 100⟩] := by
  decide

/-! ## C4: the 70-event constant-delta wraparound scenario -/

set_option maxRecDepth 4000 in
/-- C4 counterexample: feeding 70 events with constant delta 80 yields 69
accepted samples, each with instantaneous rate 100, but the running
average is not 100 after every accepted sample: after the first one it
is 0. -/
theorem wraparound_constant_rate_counterexample :
    (runSamples init_event ts70).map Sample.rate = List.replicate 69 100 ∧
    ((runSamples init_event ts70).getD 0 ⟨0, 0⟩).avg ≠ 100 := by
  constructor
  · decide
  · decide

set_option maxRecDepth 4000 in
/-- C4 amended: over the 70-event constant-delta-80 feed, the m-th accepted
sample (1-based) reports average ⌊100(m−1)/m⌋ while m < 64 (0, 50, 66, …,
98) and exactly 100 for every m ≥ 64, in particular across the ring-buffer
wraparound. -/
theorem wraparound_constant_rate_run :
    runSamples init_event ts70 =
      (List.range 69).map
        (fun m => ⟨100, if m + 1 < 64 then (100 * m) / (m + 1) else 100⟩) := by
  decide

/-! ## C1 counterexample -/

/-- C1 counterexample: after one accepted sample of rate 200 (timestamps
1 then 41), the claimed value of `runningAverage` — the integer mean of the
last min(1, 64) accepted rates, i.e. 200 — differs from the actual value 0:
the sample was written to slot 1 while the averaging loop read only slot 0. -/
theorem single_sample_average_counterexample :
    acceptedRates 0 [1, 41] = [200] ∧
    (runSeq init_event [1, 41]).count = 1 ∧
    (runSeq init_event [1, 41]).avghz ≠ 200 := by
  refine ⟨by decide, by decide, by decide⟩

/-! ## C7: the lastTimestamp-sentinel invariant -/

lemma runSeq_inv_aux : ∀ (l : List Nat) (e : event_t),
    List.Pairwise (· ≤ ·) l → (∀ t ∈ l, e.prev_time ≤ t) →
    (e.prev_time = 0 → e.count = 0) →
    ((runSeq e l).prev_time = 0 → (runSeq e l).count = 0) := by
  intro l
  induction l with
  | nil => intro e _ _ h; exact h
  | cons t rest ih =>
    intro e hpw hle h
    rcases List.pairwise_cons.mp hpw with ⟨hrest, hpw'⟩
    refine ih (update_hz e t).1 hpw' ?_ ?_
    · intro u hu
      rw [update_hz_prev]
      exact hrest u hu
    · intro hp
      rw [update_hz_prev] at hp
      subst hp
      have he0 : e.prev_time = 0 :=
        Nat.le_zero.mp (hle 0 (List.mem_cons_self 0 rest))
      rw [update_hz_baseline e 0 he0]
      exact h he0

/-- C7: the invariant `lastTimestamp == 0 → sampleCount == 0` holds in the
zero-initialised estimator and after every prefix of any monotonically
non-decreasing timestamp sequence. -/
theorem sentinel_invariant (ts : List Nat) (hchain : List.Chain' (· ≤ ·) ts)
    (n : Nat) (h : (runSeq init_event (ts.take n)).prev_time = 0) :
    (runSeq init_event (ts.take n)).count = 0 := by
  have hpw : List.Pairwise (· ≤ ·) ts := List.chain'_iff_pairwise.mp hchain
  have hpw' : List.Pairwise (· ≤ ·) (ts.take n) :=
    hpw.sublist (List.take_sublist n ts)
  exact runSeq_inv_aux (ts.take n) init_event hpw'
    (fun t _ => Nat.zero_le t) (fun _ => rfl) h

theorem sentinel_invariant_witness :
    List.Chain' (· ≤ ·) [0, 0, 5] ∧
    (runSeq init_event ([0, 0, 5].take 2)).prev_time = 0 ∧
    (runSeq init_event ([0, 0, 5].take 2)).count = 0 :=
  ⟨by simp [List.chain'_cons, List.chain'_singleton],
   by decide,
   sentinel_invariant [0, 0, 5]
     (by simp [List.chain'_cons, List.chain'_singleton]) 2 (by decide)⟩

/-! ## C1: characterization of the circular buffer and running average -/

lemma writeAll_append (xs : List Nat) : ∀ (buf : Nat → Nat) (base : Nat) (y : Nat),
    writeAll buf base (xs ++ [y]) =
      Function.update (writeAll buf base xs) ((base + xs.length + 1) % HZ_LIST) y := by
  induction xs with
  | nil =>
    intro buf base y
    simp [writeAll]
  | cons a rest ih =>
    intro buf base y
    have h1 : base + 1 + rest.length + 1 = base + (a :: rest).length + 1 := by
      simp only [List.length_cons]
      omega
    show writeAll (Function.update buf ((base + 1) % HZ_LIST) a) (base + 1) (rest ++ [y]) =
      Function.update (writeAll (Function.update buf ((base + 1) % HZ_LIST) a) (base + 1) rest)
        ((base + (a :: rest).length + 1) % HZ_LIST) y
    rw [ih, h1]

lemma coreBuf_char : ∀ (rs : List Nat) (j : Nat), j < HZ_LIST →
    coreBuf rs j =
      if (1 ≤ j ∧ j ≤ rs.length) ∨ (j = 0 ∧ HZ_LIST ≤ rs.length)
      then rs.getD (rs.length - (rs.length - j) % HZ_LIST - 1) 0
      else 0 := by
  intro rs
  induction rs using List.reverseRecOn with
  | nil =>
    intro j hj
    rw [if_neg]
    · rfl
    · simp only [HZ_LIST, List.length_nil]
      omega
  | append_singleton xs x ih =>
    intro j hj
    have h64 : HZ_LIST = 64 := rfl
    have hlen : (xs ++ [x]).length = xs.length + 1 := by simp
    have hup : coreBuf (xs ++ [x])
        = Function.update (coreBuf xs) ((xs.length + 1) % HZ_LIST) x := by
      unfold coreBuf
      rw [writeAll_append]
      norm_num
    rw [hup, Function.update_apply]
    by_cases hjm : j = (xs.length + 1) % HZ_LIST
    · rw [if_pos hjm]
      have hC : (1 ≤ j ∧ j ≤ (xs ++ [x]).length) ∨ (j = 0 ∧ HZ_LIST ≤ (xs ++ [x]).length) := by
        rw [hlen, h64]
        rw [h64] at hjm hj
        omega
      rw [if_pos hC]
      have hidx : (xs ++ [x]).length - ((xs ++ [x]).length - j) % HZ_LIST - 1 = xs.length := by
        rw [hlen, h64]
        rw [h64] at hjm hj
        omega
      rw [hidx, List.getD_append_right xs [x] 0 xs.length (le_refl _)]
      simp
    · rw [if_neg hjm, ih j hj]
      by_cases hc : (1 ≤ j ∧ j ≤ xs.length) ∨ (j = 0 ∧ HZ_LIST ≤ xs.length)
      · rw [if_pos hc]
        have hc' : (1 ≤ j ∧ j ≤ (xs ++ [x]).length) ∨ (j = 0 ∧ HZ_LIST ≤ (xs ++ [x]).length) := by
          rw [hlen, h64]
          rw [h64] at hc
          omega
        rw [if_pos hc']
        have hidx : (xs ++ [x]).length - ((xs ++ [x]).length - j) % HZ_LIST - 1
            = xs.length - (xs.length - j) % HZ_LIST - 1 := by
          rw [hlen, h64]
          rw [h64] at hc hjm hj
          omega
        rw [hidx]
        have hlt : xs.length - (xs.length - j) % HZ_LIST - 1 < xs.length := by
          rw [h64]
          rw [h64] at hc
          omega
        rw [List.getD_append xs [x] 0 _ hlt]
      · rw [if_neg hc]
        have hc' : ¬ ((1 ≤ j ∧ j ≤ (xs ++ [x]).length) ∨ (j = 0 ∧ HZ_LIST ≤ (xs ++ [x]).length)) := by
          rw [hlen, h64]
          rw [h64] at hc hjm hj
          omega
        rw [if_neg hc']

lemma sum_hz_eq_range (buf : Nat → Nat) : ∀ n, sum_hz buf n = ∑ j in Finset.range n, buf j := by
  intro n
  induction n with
  | zero => simp [sum_hz]
  | succ m ih => rw [sum_hz, ih, Finset.sum_range_succ]

lemma list_sum_getD (l : List Nat) : l.sum = ∑ i in Finset.range l.length, l.getD i 0 := by
  induction l with
  | nil => simp
  | cons a t ih =>
    rw [List.sum_cons, List.length_cons, Finset.sum_range_succ']
    simp only [List.getD_cons_succ, List.getD_cons_zero]
    rw [← ih]
    omega

/-- For fewer than `HZ_LIST` accepted samples, summing the first `n` buffer
slots collects slot 0 (still zero) and the first `n - 1` accepted rates. -/
lemma sum_hz_take (rs : List Nat) (hm : rs.length < HZ_LIST) :
    ∀ n, n ≤ rs.length → sum_hz (coreBuf rs) n = (rs.take (n - 1)).sum := by
  have h64 : HZ_LIST = 64 := rfl
  intro n
  induction n with
  | zero => intro _; simp [sum_hz]
  | succ k ih =>
    intro hk
    rw [sum_hz, ih (by omega)]
    have hklt : k < HZ_LIST := by omega
    rw [coreBuf_char rs k hklt]
    rcases Nat.eq_zero_or_pos k with hk0 | hkpos
    · subst hk0
      rw [if_neg (by rw [h64] at hm ⊢; omega)]
      simp
    · rw [if_pos (by omega)]
      have hidx : rs.length - (rs.length - k) % HZ_LIST - 1 = k - 1 := by
        rw [h64] at hm ⊢
        omega
      rw [hidx]
      have hk1 : k - 1 < rs.length := by omega
      have htake : rs.take k = rs.take (k - 1) ++ (rs.getD (k - 1) 0 :: []) := by
        have h2 : rs.take ((k - 1) + 1) = rs.take (k - 1) ++ rs[k - 1]?.toList :=
          List.take_succ
        have h3 : (k - 1) + 1 = k := by omega
        rw [h3] at h2
        rw [h2, List.getElem?_eq_getElem hk1]
        rw [List.getD_eq_getElem rs 0 hk1]
        rfl
      have h4 : k + 1 - 1 = k := by omega
      rw [h4, htake, List.sum_append]
      simp

/-- Once at least `HZ_LIST` samples have been accepted, summing all
`HZ_LIST` buffer slots collects exactly the most recent `HZ_LIST` accepted
rates. -/
lemma sum_hz_full (rs : List Nat) (hm : HZ_LIST ≤ rs.length) :
    sum_hz (coreBuf rs) HZ_LIST = (rs.drop (rs.length - HZ_LIST)).sum := by
  have h64 : HZ_LIST = 64 := rfl
  rw [sum_hz_eq_range]
  have hchar : ∀ j ∈ Finset.range HZ_LIST,
      coreBuf rs j = rs.getD (rs.length - (rs.length - j) % HZ_LIST - 1) 0 := by
    intro j hj
    rw [Finset.mem_range] at hj
    rw [coreBuf_char rs j hj, if_pos]
    rw [h64] at hj hm
    omega
  rw [Finset.sum_congr rfl hchar]
  rw [list_sum_getD (rs.drop (rs.length - HZ_LIST))]
  have hlen2 : (rs.drop (rs.length - HZ_LIST)).length = HZ_LIST := by
    rw [List.length_drop, h64]
    rw [h64] at hm
    omega
  rw [hlen2]
  have hterm : ∀ i ∈ Finset.range HZ_LIST,
      (rs.drop (rs.length - HZ_LIST)).getD i 0 = rs.getD (rs.length - HZ_LIST + i) 0 := by
    intro i _
    rw [List.getD_eq_getElem?_getD, List.getD_eq_getElem?_getD, List.getElem?_drop]
  rw [Finset.sum_congr rfl hterm]
  rw [h64] at hm ⊢
  refine Finset.sum_nbij' (fun j => 63 - (rs.length - j) % 64)
    (fun i => (rs.length - 63 + i) % 64) ?_ ?_ ?_ ?_ ?_
  · intro j hj
    simp only [Finset.mem_range] at hj ⊢
    omega
  · intro i hi
    simp only [Finset.mem_range] at hi ⊢
    omega
  · intro j hj
    simp only [Finset.mem_range] at hj
    dsimp only
    omega
  · intro i hi
    simp only [Finset.mem_range] at hi
    dsimp only
    omega
  · intro j hj
    simp only [Finset.mem_range] at hj
    dsimp only
    congr 1
    omega

lemma avgOf_small (rs : List Nat) (h1 : 1 ≤ rs.length) (h2 : rs.length < HZ_LIST) :
    avgOf rs = (rs.take (rs.length - 1)).sum / rs.length := by
  unfold avgOf maxavgOf
  rw [if_neg (by omega), if_neg (by omega)]
  rw [sum_hz_take rs h2 rs.length (le_refl _)]

lemma avgOf_big (rs : List Nat) (h : HZ_LIST ≤ rs.length) :
    avgOf rs = (rs.drop (rs.length - HZ_LIST)).sum / HZ_LIST := by
  have h0 : (0 : Nat) < HZ_LIST := by norm_num [HZ_LIST]
  unfold avgOf maxavgOf
  rw [if_neg (by omega), ← sum_hz_full rs h]
  by_cases hgt : rs.length > HZ_LIST
  · rw [if_pos hgt]
  · rw [if_neg hgt, show rs.length = HZ_LIST by omega]

lemma acceptedRates_cons_eq (p t : Nat) (rest : List Nat) :
    acceptedRates p (t :: rest) =
      if p = 0 then acceptedRates t rest
      else
        let timediff := u64sub t p
        let hz := if timediff ≠ 0 then 8000 / timediff else 0
        if hz > 0 then hz :: acceptedRates t rest else acceptedRates t rest := rfl

lemma acceptedRates_cons_baseline (t : Nat) (rest : List Nat) :
    acceptedRates 0 (t :: rest) = acceptedRates t rest := by
  rw [acceptedRates_cons_eq, if_pos rfl]

lemma acceptedRates_cons_reject (p t : Nat) (rest : List Nat) (hp : p ≠ 0)
    (hr : 8000 / u64sub t p = 0) :
    acceptedRates p (t :: rest) = acceptedRates t rest := by
  rw [acceptedRates_cons_eq, if_neg hp]
  rcases eq_or_ne (u64sub t p) 0 with hd | hd
  · simp [hd]
  · simp [hd, hr]

lemma acceptedRates_cons_accept (p t : Nat) (rest : List Nat) (hp : p ≠ 0)
    (hr : 0 < 8000 / u64sub t p) :
    acceptedRates p (t :: rest) = (8000 / u64sub t p) :: acceptedRates t rest := by
  have hd : u64sub t p ≠ 0 := by
    intro h; rw [h] at hr; simp at hr
  rw [acceptedRates_cons_eq, if_neg hp]
  simp only [hd, ne_eq, not_false_eq_true, if_true, ite_true]
  rw [if_pos hr]

lemma acceptedRates_cons (p t : Nat) (rest : List Nat) :
    acceptedRates p (t :: rest) = acceptedRates p [t] ++ acceptedRates t rest := by
  by_cases hp : p = 0
  · subst hp
    simp only [acceptedRates_cons_baseline]
    rfl
  · by_cases hr : 0 < 8000 / u64sub t p
    · rw [acceptedRates_cons_accept p t rest hp hr, acceptedRates_cons_accept p t [] hp hr]
      rfl
    · rw [acceptedRates_cons_reject p t rest hp (Nat.eq_zero_of_not_pos hr),
          acceptedRates_cons_reject p t [] hp (Nat.eq_zero_of_not_pos hr)]
      rfl

lemma update_hz_canonical (rs : List Nat) (p t : Nat) :
    (update_hz ⟨coreBuf rs, rs.length, avgOf rs, p⟩ t).1 =
      ⟨coreBuf (rs ++ acceptedRates p [t]), (rs ++ acceptedRates p [t]).length,
       avgOf (rs ++ acceptedRates p [t]), t⟩ := by
  by_cases hp : p = 0
  · subst hp
    rw [update_hz_baseline _ t rfl]
    simp [acceptedRates]
  · by_cases hr : 0 < 8000 / u64sub t p
    · have haz : acceptedRates p [t] = [8000 / u64sub t p] := by
        rw [acceptedRates_cons_accept p t [] hp hr]
        rfl
      rw [update_hz_accept ⟨coreBuf rs, rs.length, avgOf rs, p⟩ t hp hr, haz]
      dsimp only
      have hbuf : Function.update (coreBuf rs) ((rs.length + 1) &&& (HZ_LIST - 1))
            (8000 / u64sub t p)
          = coreBuf (rs ++ [8000 / u64sub t p]) := by
        unfold coreBuf
        rw [writeAll_append, and_mask_eq_mod]
        norm_num
      have hlen : (rs ++ [8000 / u64sub t p]).length = rs.length + 1 := by simp
      have havg : avgOf (rs ++ [8000 / u64sub t p])
          = sum_hz (coreBuf (rs ++ [8000 / u64sub t p])) (maxavgOf (rs.length + 1))
              / maxavgOf (rs.length + 1) := by
        unfold avgOf
        rw [hlen, if_neg (by omega)]
      rw [hbuf, hlen, havg]
      unfold maxavgOf
      rfl
    · have haz : acceptedRates p [t] = [] := by
        rw [acceptedRates_cons_reject p t [] hp (Nat.eq_zero_of_not_pos hr)]
        rfl
      rw [update_hz_reject _ t hp (Nat.eq_zero_of_not_pos hr), haz]
      simp

lemma runSeq_char : ∀ (ts rs : List Nat) (p : Nat),
    runSeq ⟨coreBuf rs, rs.length, avgOf rs, p⟩ ts =
      ⟨coreBuf (rs ++ acceptedRates p ts), (rs ++ acceptedRates p ts).length,
       avgOf (rs ++ acceptedRates p ts), ts.getLastD p⟩ := by
  intro ts
  induction ts with
  | nil =>
    intro rs p
    show (⟨coreBuf rs, rs.length, avgOf rs, p⟩ : event_t) = _
    simp [acceptedRates]
  | cons t rest ih =>
    intro rs p
    have h1 : runSeq ⟨coreBuf rs, rs.length, avgOf rs, p⟩ (t :: rest)
        = runSeq (update_hz ⟨coreBuf rs, rs.length, avgOf rs, p⟩ t).1 rest := rfl
    rw [h1, update_hz_canonical rs p t, ih (rs ++ acceptedRates p [t]) t]
    rw [acceptedRates_cons p t rest, List.append_assoc]
    rw [List.getLastD_cons]

/-- C1 amended: after `m` accepted samples the running average is: `0` for
`m = 0`; the truncating mean over slots `0..m-1` — i.e. `(sum of the first
m − 1 accepted rates) / m`, the most recent rate being excluded and the
never-written slot 0 contributing `0` — for `1 ≤ m < 64`; and the exact
truncating mean of the most recent 64 accepted rates for `m ≥ 64`. -/
theorem avghz_window_characterization (ts : List Nat) :
    (runSeq init_event ts).count = (acceptedRates 0 ts).length ∧
    ((acceptedRates 0 ts).length = 0 → (runSeq init_event ts).avghz = 0) ∧
    (1 ≤ (acceptedRates 0 ts).length → (acceptedRates 0 ts).length < HZ_LIST →
      (runSeq init_event ts).avghz =
        ((acceptedRates 0 ts).take ((acceptedRates 0 ts).length - 1)).sum
          / (acceptedRates 0 ts).length) ∧
    (HZ_LIST ≤ (acceptedRates 0 ts).length →
      (runSeq init_event ts).avghz =
        ((acceptedRates 0 ts).drop ((acceptedRates 0 ts).length - HZ_LIST)).sum
          / HZ_LIST) := by
  have hinit : init_event
      = (⟨coreBuf [], List.length ([] : List Nat), avgOf [], 0⟩ : event_t) := rfl
  rw [hinit, runSeq_char ts [] 0]
  simp only [List.nil_append]
  refine ⟨trivial, ?_, ?_, ?_⟩
  · intro h0
    show avgOf (acceptedRates 0 ts) = 0
    unfold avgOf
    rw [if_pos h0]
  · intro hge hlt
    exact avgOf_small (acceptedRates 0 ts) hge hlt
  · intro hge
    exact avgOf_big (acceptedRates 0 ts) hge

theorem avghz_window_characterization_witness :
    (1 ≤ (acceptedRates 0 [1, 41, 121]).length ∧
      (acceptedRates 0 [1, 41, 121]).length < HZ_LIST) ∧
    (runSeq init_event [1, 41, 121]).avghz =
      ((acceptedRates 0 [1, 41, 121]).take ((acceptedRates 0 [1, 41, 121]).length - 1)).sum
        / (acceptedRates 0 [1, 41, 121]).length :=
  ⟨⟨by decide, by decide⟩,
   (avghz_window_characterization [1, 41, 121]).2.2.1 (by decide) (by decide)⟩
